import Mathlib

/-
Verification of the GPX enclosed-area calculator (GpxReader.py).

The source reads two tracks (a planned straight line and an actual route),
builds a boundary polygon, and computes: the haversine distance between the
planned line's endpoints, the spherical-polygon area enclosed between the two
tracks, and the average deviation (area divided by distance).

Shallow embedding conventions:
- Python/numpy floating point is modelled by exact reals.
- numpy `arctan2` is modelled by `arctan2` below (IEEE atan2 on exact reals).
- Python float `%` with a positive modulus is modelled by `fmod`.
- Python exceptions (IndexError from indexing an empty array, AttributeError
  from calling `.append` on a numpy ndarray, ValueError from the shapely
  Polygon constructor) are modelled with `Except PyError`.
- numpy float division by zero silently yields inf or nan; this is modelled
  by `NumFloat` / `numpyDiv`.
-/

noncomputable section

open Classical

/-- Python float `x % y` for real operands, as numpy computes it:
the representative of x modulo y lying in [0, y) when y > 0. -/
def fmod (x y : ℝ) : ℝ := x - y * (⌊x / y⌋ : ℝ)

theorem fmod_nonneg (x y : ℝ) (hy : 0 < y) : 0 ≤ fmod x y := by
  have h1 : (⌊x / y⌋ : ℝ) ≤ x / y := Int.floor_le (x / y)
  have h2 : y * (⌊x / y⌋ : ℝ) ≤ y * (x / y) := by
    exact mul_le_mul_of_nonneg_left h1 (le_of_lt hy)
  have h3 : y * (x / y) = x := by field_simp
  unfold fmod; linarith

theorem fmod_lt (x y : ℝ) (hy : 0 < y) : fmod x y < y := by
  have h1 : x / y < (⌊x / y⌋ : ℝ) + 1 := Int.lt_floor_add_one (x / y)
  have h2 : y * (x / y) < y * ((⌊x / y⌋ : ℝ) + 1) := by
    exact mul_lt_mul_of_pos_left h1 hy
  have h3 : y * (x / y) = x := by field_simp
  unfold fmod; nlinarith

theorem fmod_eq_self (x y : ℝ) (hy : 0 < y) (h0 : 0 ≤ x) (h1 : x < y) :
    fmod x y = x := by
  have hfloor : ⌊x / y⌋ = 0 := by
    rw [Int.floor_eq_zero_iff]
    constructor
    · exact div_nonneg h0 (le_of_lt hy)
    · rw [div_lt_one hy]; exact h1
  unfold fmod
  rw [hfloor]
  simp

theorem fmod_add_int_mul (x y : ℝ) (hy : y ≠ 0) (k : ℤ) :
    fmod (x + y * k) y = fmod x y := by
  have hdiv : (x + y * k) / y = x / y + k := by field_simp; ring
  unfold fmod
  rw [hdiv, Int.floor_add_int]
  push_cast
  ring

/-- numpy `arctan2 y x` on exact reals: the angle of the point (x, y),
in (-pi, pi], with `arctan2 0 0 = 0`. -/
def arctan2 (y x : ℝ) : ℝ :=
  if 0 < x then Real.arctan (y / x)
  else if x < 0 then
    (if 0 ≤ y then Real.arctan (y / x) + Real.pi else Real.arctan (y / x) - Real.pi)
  else
    (if 0 < y then Real.pi / 2 else if y < 0 then -(Real.pi / 2) else 0)

theorem arctan2_of_pos (y x : ℝ) (hx : 0 < x) : arctan2 y x = Real.arctan (y / x) := by
  unfold arctan2; rw [if_pos hx]

theorem arctan2_zero_of_pos (x : ℝ) (hx : 0 < x) : arctan2 0 x = 0 := by
  rw [arctan2_of_pos 0 x hx, zero_div, Real.arctan_zero]

theorem arctan2_zero_of_neg (x : ℝ) (hx : x < 0) : arctan2 0 x = Real.pi := by
  unfold arctan2
  rw [if_neg (by linarith), if_pos hx, if_pos le_rfl, zero_div, Real.arctan_zero,
    zero_add]

theorem arctan2_pos_zero (y : ℝ) (hy : 0 < y) : arctan2 y 0 = Real.pi / 2 := by
  unfold arctan2
  rw [if_neg (lt_irrefl 0), if_neg (lt_irrefl 0), if_pos hy]

theorem arctan2_zero_zero : arctan2 0 0 = 0 := by
  unfold arctan2
  rw [if_neg (lt_irrefl 0), if_neg (lt_irrefl 0), if_neg (lt_irrefl 0),
    if_neg (lt_irrefl 0)]

/-- A geographic point as the source stores it: a longitude/latitude pair in
decimal degrees (the source keeps entries as [longitude, latitude]). -/
structure GeoPoint where
  lon : ℝ
  lat : ℝ

/-- numpy `deg2rad`. -/
def deg2rad (x : ℝ) : ℝ := x * Real.pi / 180

theorem deg2rad_zero : deg2rad 0 = 0 := by unfold deg2rad; ring

theorem deg2rad_ninety : deg2rad 90 = Real.pi / 2 := by unfold deg2rad; ring

theorem deg2rad_neg_ninety : deg2rad (-90) = -(Real.pi / 2) := by
  unfold deg2rad; ring

/-- Adjacent-pairs zip: `adjZip f [x0, x1, x2, ...] = [f x0 x1, f x1 x2, ...]`.
Used to express numpy operations on consecutive elements. -/
def adjZip (f : ℝ → ℝ → ℝ) (l : List ℝ) : List ℝ := List.zipWith f l l.tail

/-- numpy `diff`: differences of consecutive elements. -/
def npDiff (l : List ℝ) : List ℝ := adjZip (fun a b => b - a) l

theorem adjZip_nil (f : ℝ → ℝ → ℝ) : adjZip f [] = [] := rfl

theorem adjZip_singleton (f : ℝ → ℝ → ℝ) (x : ℝ) : adjZip f [x] = [] := rfl

theorem adjZip_cons_cons (f : ℝ → ℝ → ℝ) (x y : ℝ) (t : List ℝ) :
    adjZip f (x :: y :: t) = f x y :: adjZip f (y :: t) := rfl

theorem adjZip_concat_concat (f : ℝ → ℝ → ℝ) :
    ∀ (l : List ℝ) (a b : ℝ),
      adjZip f (l ++ [a, b]) = adjZip f (l ++ [a]) ++ [f a b]
  | [], a, b => rfl
  | [x], a, b => rfl
  | x :: y :: t, a, b => by
    have ih := adjZip_concat_concat f (y :: t) a b
    simp only [List.cons_append] at *
    rw [adjZip_cons_cons, adjZip_cons_cons, ih]
    rfl

theorem adjZip_reverse (f : ℝ → ℝ → ℝ) :
    ∀ l : List ℝ, adjZip f l.reverse = (adjZip (fun a b => f b a) l).reverse
  | [] => rfl
  | [x] => rfl
  | x :: y :: t => by
    have ih := adjZip_reverse f (y :: t)
    have h1 : (x :: y :: t).reverse = (y :: t).reverse ++ [x] := by
      simp [List.reverse_cons]
    have h2 : (y :: t).reverse = t.reverse ++ [y] := by simp [List.reverse_cons]
    rw [h1, h2, List.append_assoc]
    have h3 : ([y] ++ [x] : List ℝ) = [y, x] := rfl
    rw [h3, adjZip_concat_concat f t.reverse y x, ← h2, ih, adjZip_cons_cons]
    simp [List.reverse_cons]

theorem npDiff_reverse (l : List ℝ) :
    npDiff l.reverse = ((npDiff l).map (fun x => -x)).reverse := by
  unfold npDiff
  rw [adjZip_reverse]
  have h : (adjZip (fun a b => a - b) l) = (adjZip (fun a b => b - a) l).map (fun x => -x) := by
    unfold adjZip
    rw [List.map_zipWith]
    have hf : (fun a b => a - b) = fun (x : ℝ) (y : ℝ) => -(y - x) := by
      funext a b; ring
    rw [hf]
  rw [h]

theorem sum_map_neg (l : List ℝ) : (l.map (fun x => -x)).sum = -l.sum := by
  induction l with
  | nil => simp
  | cons a t ih => simp [ih]; ring

/-- The daz normalization of the source:
`daz = (daz + pi) % (2 * pi) - pi`. -/
def dazNorm (d : ℝ) : ℝ := fmod (d + Real.pi) (2 * Real.pi) - Real.pi

theorem dazNorm_mem_Ico (d : ℝ) :
    dazNorm d ∈ Set.Ico (-Real.pi) Real.pi := by
  have hpi : (0 : ℝ) < 2 * Real.pi := by positivity
  constructor
  · have := fmod_nonneg (d + Real.pi) (2 * Real.pi) hpi
    unfold dazNorm; linarith
  · have := fmod_lt (d + Real.pi) (2 * Real.pi) hpi
    unfold dazNorm; linarith

theorem dazNorm_eq_of (d z : ℝ) (k : ℤ) (h0 : -Real.pi ≤ z) (h1 : z < Real.pi)
    (hdz : d = z + 2 * Real.pi * k) : dazNorm d = z := by
  have hpi : (0 : ℝ) < 2 * Real.pi := by positivity
  unfold dazNorm
  have hrw : d + Real.pi = (z + Real.pi) + 2 * Real.pi * (k : ℝ) := by
    rw [hdz]; ring
  rw [hrw, fmod_add_int_mul _ _ (ne_of_gt hpi), fmod_eq_self]
  · ring
  · exact hpi
  · linarith
  · linarith

theorem dazNorm_exists_int (d : ℝ) : ∃ k : ℤ, d = dazNorm d + 2 * Real.pi * k := by
  refine ⟨⌊(d + Real.pi) / (2 * Real.pi)⌋, ?_⟩
  unfold dazNorm fmod
  ring

theorem dazNorm_neg (d : ℝ) (h : dazNorm d ≠ -Real.pi) :
    dazNorm (-d) = -dazNorm d := by
  obtain ⟨hlo, hhi⟩ := dazNorm_mem_Ico d
  obtain ⟨k, hk⟩ := dazNorm_exists_int d
  have hlo2 : -Real.pi < dazNorm d := lt_of_le_of_ne hlo (Ne.symm h)
  refine dazNorm_eq_of (-d) (-dazNorm d) (-k) (by linarith) (by linarith) ?_
  push_cast
  linear_combination -hk

theorem dazNorm_pi : dazNorm Real.pi = -Real.pi := by
  refine dazNorm_eq_of Real.pi (-Real.pi) 1 le_rfl (by linarith [Real.pi_pos]) ?_
  push_cast; ring

theorem dazNorm_neg_pi : dazNorm (-Real.pi) = -Real.pi := by
  refine dazNorm_eq_of (-Real.pi) (-Real.pi) 0 le_rfl (by linarith [Real.pi_pos]) ?_
  push_cast; ring

theorem dazNorm_zero : dazNorm 0 = 0 := by
  refine dazNorm_eq_of 0 0 0 (by linarith [Real.pi_pos]) Real.pi_pos ?_
  push_cast; ring

theorem dazNorm_pi_div_two : dazNorm (Real.pi / 2) = Real.pi / 2 := by
  refine dazNorm_eq_of (Real.pi / 2) (Real.pi / 2) 0
    (by linarith [Real.pi_pos]) (by linarith [Real.pi_pos]) ?_
  push_cast; ring

theorem dazNorm_neg_pi_div_two : dazNorm (-(Real.pi / 2)) = -(Real.pi / 2) := by
  refine dazNorm_eq_of (-(Real.pi / 2)) (-(Real.pi / 2)) 0
    (by linarith [Real.pi_pos]) (by linarith [Real.pi_pos]) ?_
  push_cast; ring

/-- Errors raised by the Python source at runtime. -/
inductive PyError where
  | indexError
  | attributeError
  | valueError
deriving DecidableEq

/-- The per-point quantity `a` of the colatitude computation of
`calculate_area`: `a = sin(lat/2)**2 + cos(lat)*sin(lon/2)**2`
(latitude and longitude already in radians). -/
def colat_a (lat lon : ℝ) : ℝ :=
  Real.sin (lat / 2) ^ 2 + Real.cos lat * Real.sin (lon / 2) ^ 2

/-- Colatitude relative to (0, 0), per point, from `calculate_area`:
`colat = 2*arctan2(sqrt(a), sqrt(1-a))`. -/
def colatOf (lat lon : ℝ) : ℝ :=
  2 * arctan2 (Real.sqrt (colat_a lat lon)) (Real.sqrt (1 - colat_a lat lon))

/-- Azimuth relative to (0, 0), per point, from `calculate_area`:
`az = arctan2(cos(lat)*sin(lon), sin(lat)) % (2*pi)`. -/
def azOf (lat lon : ℝ) : ℝ :=
  fmod (arctan2 (Real.cos lat * Real.sin lon) (Real.sin lat)) (2 * Real.pi)

/-- Midpoint-colatitude list of `calculate_area`:
`deltas = diff(colat)/2; colat = colat[0:-1] + deltas`. -/
def midForm (c : List ℝ) : List ℝ :=
  List.zipWith (fun x y => x + y) c.dropLast ((npDiff c).map (fun x => x / 2))

theorem midForm_eq_adjZip :
    ∀ c : List ℝ, midForm c = adjZip (fun a b => a + (b - a) / 2) c
  | [] => rfl
  | [x] => rfl
  | x :: y :: t => by
    have ih := midForm_eq_adjZip (y :: t)
    unfold midForm npDiff at *
    rw [adjZip_cons_cons, List.dropLast_cons₂, adjZip_cons_cons]
    simp only [List.map_cons, List.zipWith_cons_cons]
    rw [ih]

theorem midForm_reverse (c : List ℝ) : midForm c.reverse = (midForm c).reverse := by
  rw [midForm_eq_adjZip, midForm_eq_adjZip, adjZip_reverse]
  have hf : (fun (a : ℝ) (b : ℝ) => b + (a - b) / 2) = fun a b => a + (b - a) / 2 := by
    funext a b; ring
  rw [hf]

theorem adjZip_length (f : ℝ → ℝ → ℝ) (l : List ℝ) :
    (adjZip f l).length = l.length - 1 := by
  unfold adjZip
  rw [List.length_zipWith, List.length_tail]
  omega

theorem midForm_length (c : List ℝ) : (midForm c).length = c.length - 1 := by
  rw [midForm_eq_adjZip, adjZip_length]

/-- The haversine quantity `a` of `calculate_line_distance`:
`a = sin(dlat/2)**2 + cos(lat_1)*cos(lat_2)*sin(dlon/2)**2`,
with all coordinates converted to radians first. -/
def hav_a (p1 p2 : GeoPoint) : ℝ :=
  Real.sin ((deg2rad p2.lat - deg2rad p1.lat) / 2) ^ 2 +
    Real.cos (deg2rad p1.lat) * Real.cos (deg2rad p2.lat) *
      Real.sin ((deg2rad p2.lon - deg2rad p1.lon) / 2) ^ 2

/-- The haversine distance of `calculate_line_distance`:
`c = 2*arctan2(sqrt(a), sqrt(1-a))`; result `earth_radius * c`. -/
def haversine (p1 p2 : GeoPoint) (R : ℝ) : ℝ :=
  R * (2 * arctan2 (Real.sqrt (hav_a p1 p2)) (Real.sqrt (1 - hav_a p1 p2)))

/-- `GpxReader.calculate_line_distance`: the haversine distance between the
first and last point of the planned line (`points[0]` and `points[-1]`);
indexing an empty track raises IndexError. -/
def calculate_line_distance (pts : List GeoPoint) (R : ℝ) : Except PyError ℝ :=
  match pts.head?, pts.getLast? with
  | some p, some q => Except.ok (haversine p q R)
  | _, _ => Except.error PyError.indexError

/-- The integral part of `calculate_area`, taking the colatitude and azimuth
lists: daz normalization, midpoint colatitudes, integrands, and the
solid-angle fraction `abs(sum(integrands)) / (4*pi)`. -/
def fracOf (colat az : List ℝ) : ℝ :=
  |(List.zipWith (fun c d => (1 - Real.cos c) * d)
      (midForm colat) ((npDiff az).map dazNorm)).sum| / (4 * Real.pi)

/-- The solid-angle fraction of `calculate_area` computed from the radian
latitude/longitude lists. -/
def areaFrac (lats lons : List ℝ) : ℝ :=
  fracOf ((lats.zip lons).map (fun q => colatOf q.1 q.2))
    ((lats.zip lons).map (fun q => azOf q.1 q.2))

/-- The area value of `calculate_area` once the ring-closure guard has
passed: `area = min(f, 1 - f); area * 4 * pi * earth_radius**2`. -/
def areaCore (lats lons : List ℝ) (R : ℝ) : ℝ :=
  min (areaFrac lats lons) (1 - areaFrac lats lons) * 4 * Real.pi * R ^ 2

/-- `GpxReader.calculate_area` on the stored latitude/longitude lists (in
degrees).  The source converts to radians, then runs
`if lats[0] != lats[-1]: lats.append(lats[0]); lons.append(lons[0])`.
Indexing an empty array raises IndexError; when the branch is taken the
calls `lats.append(...)` raise AttributeError, because `deg2rad` has turned
the Python lists into numpy ndarrays, which have no `append` method. -/
def calculate_area (latDeg lonDeg : List ℝ) (R : ℝ) : Except PyError ℝ :=
  if latDeg.map deg2rad = [] then Except.error PyError.indexError
  else if (latDeg.map deg2rad).head? = (latDeg.map deg2rad).getLast? then
    Except.ok (areaCore (latDeg.map deg2rad) (lonDeg.map deg2rad) R)
  else Except.error PyError.attributeError

/-- The spec's `sphericalPolygonArea` contract applied to a ring of
GeoPoints: the source stores the ring's latitudes and longitudes in separate
lists and hands them to `calculate_area`. -/
def sphericalPolygonArea (ring : List GeoPoint) (R : ℝ) : Except PyError ℝ :=
  calculate_area (ring.map GeoPoint.lat) (ring.map GeoPoint.lon) R

/-- Colatitude of a GeoPoint (degrees converted to radians). -/
def pointColat (p : GeoPoint) : ℝ := colatOf (deg2rad p.lat) (deg2rad p.lon)

/-- Azimuth of a GeoPoint (degrees converted to radians). -/
def pointAz (p : GeoPoint) : ℝ := azOf (deg2rad p.lat) (deg2rad p.lon)

/-- `read_segments`: `self.__lon_lat_line`, the planned line's points
followed by the same points reversed (used only for plotting). -/
def lon_lat_line (line : List GeoPoint) : List GeoPoint := line ++ line.reverse

/-- `read_segments`: `self.__lon_lat_mission`, the actual route's points
followed by the same points reversed (used only for plotting). -/
def lon_lat_mission (mission : List GeoPoint) : List GeoPoint :=
  mission ++ mission.reverse

/-- `read_segments`: `self.__lon_lat_polygon`, the boundary ring: the
planned line's points, then the actual route's points in reverse order, then
`points[0:1]` of the planned line. -/
def lon_lat_polygon (line mission : List GeoPoint) : List GeoPoint :=
  line ++ mission.reverse ++ line.take 1

/-- `read_segments`: `self.__lon_polygon`, the boundary ring's longitudes
(`ords[0]` of each [longitude, latitude] entry). -/
def lon_polygon (line mission : List GeoPoint) : List ℝ :=
  (lon_lat_polygon line mission).map GeoPoint.lon

/-- `read_segments`: `self.__lat_polygon`, the boundary ring's latitudes
(`ords[1]` of each [longitude, latitude] entry). -/
def lat_polygon (line mission : List GeoPoint) : List ℝ :=
  (lon_lat_polygon line mission).map GeoPoint.lat

/-- A numpy float64 value: either a finite real or one of the non-finite
values that division by zero produces. -/
inductive NumFloat where
  | val : ℝ → NumFloat
  | posInf
  | negInf
  | nan
deriving DecidableEq

/-- numpy float division on exact values: division by zero emits a runtime
warning and silently yields inf, -inf or nan instead of raising. -/
def numpyDiv (x y : ℝ) : NumFloat :=
  if y = 0 then (if x = 0 then NumFloat.nan
    else if 0 < x then NumFloat.posInf else NumFloat.negInf)
  else NumFloat.val (x / y)

/-- `GpxReader.calculate_av_deviation`: `self.__area / self.__distance`,
an unguarded numpy float division. -/
def calculate_av_deviation (area distance : ℝ) : NumFloat :=
  numpyDiv area distance

/-- Modelled from the library documentation: shapely's `Polygon` constructor
(used by `create_polygons` purely to build plot geometry) accepts an empty
coordinate sequence and otherwise requires at least 3 coordinates, raising
ValueError below that. -/
def shapelyOk (l : List GeoPoint) : Prop := l = [] ∨ 3 ≤ l.length

/-- The three statistics the reader stores. -/
structure GpxResult where
  distance : ℝ
  area : ℝ
  av_deviation : NumFloat

/-- `GpxReader.__init__` after parsing: `read_segments` (pure list
building), `create_polygons` (shapely constructions for plotting),
`calculate_line_distance`, `calculate_area`, `calculate_av_deviation`,
in the source's order. -/
def gpxReader (line mission : List GeoPoint) (R : ℝ) : Except PyError GpxResult :=
  if ¬ shapelyOk (lon_lat_line line) then Except.error PyError.valueError
  else if ¬ shapelyOk (lon_lat_mission mission) then Except.error PyError.valueError
  else if ¬ shapelyOk (lon_lat_polygon line mission) then Except.error PyError.valueError
  else
    match calculate_line_distance line R with
    | Except.error e => Except.error e
    | Except.ok dist =>
      match calculate_area (lat_polygon line mission) (lon_polygon line mission) R with
      | Except.error e => Except.error e
      | Except.ok area => Except.ok ⟨dist, area, calculate_av_deviation area dist⟩

theorem arctan2_self_pos (x : ℝ) (hx : 0 < x) : arctan2 x x = Real.pi / 4 := by
  rw [arctan2_of_pos x x hx, div_self (ne_of_gt hx), Real.arctan_one]

theorem sin_pi_div_four_sq : Real.sin (Real.pi / 4) ^ 2 = 1 / 2 := by
  rw [Real.sin_pi_div_four]
  rw [div_pow, Real.sq_sqrt (by norm_num : (2:ℝ) ≥ 0)]
  norm_num

theorem colat_a_zero_zero : colat_a 0 0 = 0 := by
  unfold colat_a; simp

theorem colat_a_north : colat_a (Real.pi / 2) 0 = 1 / 2 := by
  unfold colat_a
  rw [show Real.pi / 2 / 2 = Real.pi / 4 by ring, sin_pi_div_four_sq,
    Real.cos_pi_div_two]
  simp

theorem colat_a_south : colat_a (-(Real.pi / 2)) 0 = 1 / 2 := by
  unfold colat_a
  rw [show -(Real.pi / 2) / 2 = -(Real.pi / 4) by ring, Real.sin_neg, neg_sq,
    sin_pi_div_four_sq, Real.cos_neg, Real.cos_pi_div_two]
  simp

theorem colat_a_east : colat_a 0 (Real.pi / 2) = 1 / 2 := by
  unfold colat_a
  rw [show Real.pi / 2 / 2 = Real.pi / 4 by ring, sin_pi_div_four_sq]
  simp

theorem colatOf_of_a_half (lat lon : ℝ) (h : colat_a lat lon = 1 / 2) :
    colatOf lat lon = Real.pi / 2 := by
  unfold colatOf
  rw [h, show (1:ℝ) - 1/2 = 1/2 by norm_num,
    arctan2_self_pos _ (Real.sqrt_pos.mpr (by norm_num))]
  ring

theorem colatOf_north : colatOf (Real.pi / 2) 0 = Real.pi / 2 :=
  colatOf_of_a_half _ _ colat_a_north

theorem colatOf_south : colatOf (-(Real.pi / 2)) 0 = Real.pi / 2 :=
  colatOf_of_a_half _ _ colat_a_south

theorem colatOf_east : colatOf 0 (Real.pi / 2) = Real.pi / 2 :=
  colatOf_of_a_half _ _ colat_a_east

theorem colatOf_origin : colatOf 0 0 = 0 := by
  unfold colatOf
  rw [colat_a_zero_zero, Real.sqrt_zero, sub_zero, Real.sqrt_one,
    arctan2_zero_of_pos 1 one_pos]
  ring

theorem two_pi_pos : (0:ℝ) < 2 * Real.pi := by positivity

theorem azOf_north : azOf (Real.pi / 2) 0 = 0 := by
  unfold azOf
  rw [Real.cos_pi_div_two, Real.sin_pi_div_two, Real.sin_zero, zero_mul,
    arctan2_zero_of_pos 1 one_pos]
  exact fmod_eq_self 0 _ two_pi_pos le_rfl two_pi_pos

theorem azOf_south : azOf (-(Real.pi / 2)) 0 = Real.pi := by
  unfold azOf
  rw [Real.cos_neg, Real.cos_pi_div_two, Real.sin_neg, Real.sin_pi_div_two,
    Real.sin_zero, zero_mul, arctan2_zero_of_neg (-1) (by norm_num)]
  exact fmod_eq_self Real.pi _ two_pi_pos (le_of_lt Real.pi_pos)
    (by linarith [Real.pi_pos])

theorem azOf_east : azOf 0 (Real.pi / 2) = Real.pi / 2 := by
  unfold azOf
  rw [Real.cos_zero, Real.sin_pi_div_two, Real.sin_zero, one_mul,
    arctan2_pos_zero 1 one_pos]
  exact fmod_eq_self (Real.pi / 2) _ two_pi_pos
    (by linarith [Real.pi_pos]) (by linarith [Real.pi_pos])

theorem azOf_origin : azOf 0 0 = 0 := by
  unfold azOf
  rw [Real.cos_zero, Real.sin_zero, one_mul, arctan2_zero_zero]
  exact fmod_eq_self 0 _ two_pi_pos le_rfl two_pi_pos

theorem hav_a_self (p : GeoPoint) : hav_a p p = 0 := by
  unfold hav_a
  simp

theorem haversine_self (p : GeoPoint) (R : ℝ) : haversine p p R = 0 := by
  unfold haversine
  rw [hav_a_self, Real.sqrt_zero, sub_zero, Real.sqrt_one,
    arctan2_zero_of_pos 1 one_pos]
  ring

theorem hav_a_comm (p1 p2 : GeoPoint) : hav_a p1 p2 = hav_a p2 p1 := by
  unfold hav_a
  rw [show (deg2rad p1.lat - deg2rad p2.lat) / 2 =
      -((deg2rad p2.lat - deg2rad p1.lat) / 2) by ring, Real.sin_neg, neg_sq,
    show (deg2rad p1.lon - deg2rad p2.lon) / 2 =
      -((deg2rad p2.lon - deg2rad p1.lon) / 2) by ring, Real.sin_neg, neg_sq]
  ring

/-- North pole: longitude 0, latitude 90 degrees. -/
def pN : GeoPoint := ⟨0, 90⟩

/-- South pole: longitude 0, latitude -90 degrees. -/
def pS : GeoPoint := ⟨0, -90⟩

/-- Equator at longitude 90 degrees. -/
def pE : GeoPoint := ⟨90, 0⟩

/-- The origin: longitude 0, latitude 0. -/
def pO : GeoPoint := ⟨0, 0⟩

theorem pointColat_pN : pointColat pN = Real.pi / 2 := by
  show colatOf (deg2rad 90) (deg2rad 0) = _
  rw [deg2rad_ninety, deg2rad_zero, colatOf_north]

theorem pointColat_pS : pointColat pS = Real.pi / 2 := by
  show colatOf (deg2rad (-90)) (deg2rad 0) = _
  rw [deg2rad_neg_ninety, deg2rad_zero, colatOf_south]

theorem pointColat_pE : pointColat pE = Real.pi / 2 := by
  show colatOf (deg2rad 0) (deg2rad 90) = _
  rw [deg2rad_ninety, deg2rad_zero, colatOf_east]

theorem pointColat_pO : pointColat pO = 0 := by
  show colatOf (deg2rad 0) (deg2rad 0) = _
  rw [deg2rad_zero, colatOf_origin]

theorem pointAz_pN : pointAz pN = 0 := by
  show azOf (deg2rad 90) (deg2rad 0) = _
  rw [deg2rad_ninety, deg2rad_zero, azOf_north]

theorem pointAz_pS : pointAz pS = Real.pi := by
  show azOf (deg2rad (-90)) (deg2rad 0) = _
  rw [deg2rad_neg_ninety, deg2rad_zero, azOf_south]

theorem pointAz_pE : pointAz pE = Real.pi / 2 := by
  show azOf (deg2rad 0) (deg2rad 90) = _
  rw [deg2rad_ninety, deg2rad_zero, azOf_east]

theorem pointAz_pO : pointAz pO = 0 := by
  show azOf (deg2rad 0) (deg2rad 0) = _
  rw [deg2rad_zero, azOf_origin]

theorem areaFrac_ring (ring : List GeoPoint) :
    areaFrac ((ring.map GeoPoint.lat).map deg2rad)
      ((ring.map GeoPoint.lon).map deg2rad)
      = fracOf (ring.map pointColat) (ring.map pointAz) := by
  unfold areaFrac
  rw [List.map_map, List.map_map, List.zip_map', List.map_map, List.map_map]
  rfl

theorem sphericalPolygonArea_eval (ring : List GeoPoint) (R : ℝ)
    (hne : ring ≠ [])
    (hcl : ((ring.map GeoPoint.lat).map deg2rad).head?
      = ((ring.map GeoPoint.lat).map deg2rad).getLast?) :
    sphericalPolygonArea ring R = Except.ok
      (min (fracOf (ring.map pointColat) (ring.map pointAz))
        (1 - fracOf (ring.map pointColat) (ring.map pointAz))
        * 4 * Real.pi * R ^ 2) := by
  unfold sphericalPolygonArea calculate_area
  rw [if_neg (by simp [hne]), if_pos hcl]
  unfold areaCore
  rw [areaFrac_ring]

theorem midForm_const4 (c : ℝ) : midForm [c, c, c, c] = [c, c, c] := by
  unfold midForm npDiff adjZip
  norm_num

theorem fracOf_NSE : fracOf [Real.pi/2, Real.pi/2, Real.pi/2, Real.pi/2]
    [0, Real.pi, Real.pi/2, 0] = 1/2 := by
  unfold fracOf
  have h1 : npDiff [0, Real.pi, Real.pi/2, 0]
      = [Real.pi, -(Real.pi/2), -(Real.pi/2)] := by
    unfold npDiff adjZip
    norm_num
    ring
  rw [midForm_const4, h1]
  simp only [List.map_cons, List.map_nil, dazNorm_pi, dazNorm_neg_pi_div_two,
    List.zipWith_cons_cons, List.zipWith_nil_right, Real.cos_pi_div_two,
    List.sum_cons, List.sum_nil]
  rw [show (1 - 0) * -Real.pi + ((1 - 0) * -(Real.pi/2) + ((1 - 0) * -(Real.pi/2) + 0))
      = -(2 * Real.pi) by ring]
  rw [abs_neg, abs_of_nonneg (le_of_lt two_pi_pos)]
  rw [div_eq_iff (by positivity : (4:ℝ) * Real.pi ≠ 0)]
  ring

theorem fracOf_NSE_rev : fracOf [Real.pi/2, Real.pi/2, Real.pi/2, Real.pi/2]
    [0, Real.pi/2, Real.pi, 0] = 0 := by
  unfold fracOf
  have h1 : npDiff [0, Real.pi/2, Real.pi, 0]
      = [Real.pi/2, Real.pi/2, -Real.pi] := by
    unfold npDiff adjZip
    norm_num
    ring
  rw [midForm_const4, h1]
  simp only [List.map_cons, List.map_nil, dazNorm_pi_div_two, dazNorm_neg_pi,
    List.zipWith_cons_cons, List.zipWith_nil_right, Real.cos_pi_div_two,
    List.sum_cons, List.sum_nil]
  rw [show (1 - 0) * (Real.pi/2) + ((1 - 0) * (Real.pi/2) + ((1 - 0) * -Real.pi + 0))
      = 0 by ring]
  simp

theorem midForm_const7 (c : ℝ) : midForm [c, c, c, c, c, c, c] = [c, c, c, c, c, c] := by
  unfold midForm npDiff adjZip
  norm_num

theorem fracOf_poles : fracOf
    [Real.pi/2, Real.pi/2, Real.pi/2, Real.pi/2, Real.pi/2, Real.pi/2, Real.pi/2]
    [0, Real.pi, 0, Real.pi, 0, Real.pi, 0] = 3/2 := by
  unfold fracOf
  have h1 : npDiff [0, Real.pi, 0, Real.pi, 0, Real.pi, 0]
      = [Real.pi, -Real.pi, Real.pi, -Real.pi, Real.pi, -Real.pi] := by
    unfold npDiff adjZip
    norm_num
  rw [midForm_const7, h1]
  simp only [List.map_cons, List.map_nil, dazNorm_pi, dazNorm_neg_pi,
    List.zipWith_cons_cons, List.zipWith_nil_right, Real.cos_pi_div_two,
    List.sum_cons, List.sum_nil]
  rw [show (1 - 0) * -Real.pi + ((1 - 0) * -Real.pi + ((1 - 0) * -Real.pi +
      ((1 - 0) * -Real.pi + ((1 - 0) * -Real.pi + ((1 - 0) * -Real.pi + 0)))))
      = -(6 * Real.pi) by ring]
  rw [abs_neg, abs_of_nonneg (by positivity : (0:ℝ) ≤ 6 * Real.pi)]
  rw [div_eq_iff (by positivity : (4:ℝ) * Real.pi ≠ 0)]
  ring

/-- A degenerate winding ring alternating between the two poles. -/
def ringPoles : List GeoPoint := [pN, pS, pN, pS, pN, pS, pN]

/-- A closed triangular ring: north pole, south pole, equator at 90 E. -/
def ringNSE : List GeoPoint := [pN, pS, pE, pN]

/-- A closed triangular ring: origin, equator at 90 E, north pole. -/
def ringSq : List GeoPoint := [pO, pE, pN, pO]

/-- A degenerate ring of three copies of the origin. -/
def ringZ : List GeoPoint := [pO, pO, pO]

theorem area_ringPoles : sphericalPolygonArea ringPoles 1
    = Except.ok (-(2 * Real.pi)) := by
  rw [sphericalPolygonArea_eval ringPoles 1 (by simp [ringPoles]) rfl]
  have hc : ringPoles.map pointColat = [Real.pi/2, Real.pi/2, Real.pi/2,
      Real.pi/2, Real.pi/2, Real.pi/2, Real.pi/2] := by
    simp [ringPoles, pointColat_pN, pointColat_pS]
  have ha : ringPoles.map pointAz = [0, Real.pi, 0, Real.pi, 0, Real.pi, 0] := by
    simp [ringPoles, pointAz_pN, pointAz_pS]
  rw [hc, ha, fracOf_poles,
    show (1:ℝ) - 3/2 = -(1/2) by norm_num,
    min_eq_right (by norm_num : -(1/2:ℝ) ≤ 3/2)]
  rw [show -(1/2:ℝ) * 4 * Real.pi * 1^2 = -(2 * Real.pi) by ring]

theorem area_ringNSE : sphericalPolygonArea ringNSE 1
    = Except.ok (2 * Real.pi) := by
  rw [sphericalPolygonArea_eval ringNSE 1 (by simp [ringNSE]) rfl]
  have hc : ringNSE.map pointColat
      = [Real.pi/2, Real.pi/2, Real.pi/2, Real.pi/2] := by
    simp [ringNSE, pointColat_pN, pointColat_pS, pointColat_pE]
  have ha : ringNSE.map pointAz = [0, Real.pi, Real.pi/2, 0] := by
    simp [ringNSE, pointAz_pN, pointAz_pS, pointAz_pE]
  rw [hc, ha, fracOf_NSE,
    show (1:ℝ) - 1/2 = 1/2 by norm_num, min_self]
  rw [show (1/2:ℝ) * 4 * Real.pi * 1^2 = 2 * Real.pi by ring]

theorem area_ringNSE_rev : sphericalPolygonArea ringNSE.reverse 1
    = Except.ok 0 := by
  have hrev : ringNSE.reverse = [pN, pE, pS, pN] := by
    simp [ringNSE]
  rw [hrev]
  rw [sphericalPolygonArea_eval [pN, pE, pS, pN] 1 (by simp) rfl]
  have hc : ([pN, pE, pS, pN].map pointColat)
      = [Real.pi/2, Real.pi/2, Real.pi/2, Real.pi/2] := by
    simp [pointColat_pN, pointColat_pS, pointColat_pE]
  have ha : ([pN, pE, pS, pN].map pointAz) = [0, Real.pi/2, Real.pi, 0] := by
    simp [pointAz_pN, pointAz_pS, pointAz_pE]
  rw [hc, ha, fracOf_NSE_rev]
  rw [show min (0:ℝ) (1 - 0) = 0 by norm_num]
  rw [show (0:ℝ) * 4 * Real.pi * 1^2 = 0 by ring]

theorem fracOf_reverse (colat az : List ℝ) (hlen : colat.length = az.length)
    (hdaz : ∀ d ∈ npDiff az, dazNorm d ≠ -Real.pi) :
    fracOf colat.reverse az.reverse = fracOf colat az := by
  unfold fracOf
  have hdaz2 : (npDiff az.reverse).map dazNorm
      = (((npDiff az).map dazNorm).map (fun x => -x)).reverse := by
    rw [npDiff_reverse az, List.map_reverse, List.map_map, List.map_map]
    congr 1
    apply List.map_congr_left
    intro d hd
    show dazNorm (-d) = -(dazNorm d)
    exact dazNorm_neg d (hdaz d hd)
  rw [hdaz2, midForm_reverse]
  have hlen2 : (midForm colat).length
      = (((npDiff az).map dazNorm).map (fun x => -x)).length := by
    rw [midForm_length, List.length_map, List.length_map]
    unfold npDiff
    rw [adjZip_length, hlen]
  rw [← List.reverse_zipWith hlen2, List.sum_reverse]
  have hneg : List.zipWith (fun c d => (1 - Real.cos c) * d) (midForm colat)
      (((npDiff az).map dazNorm).map (fun x => -x))
      = (List.zipWith (fun c d => (1 - Real.cos c) * d) (midForm colat)
          ((npDiff az).map dazNorm)).map (fun x => -x) := by
    rw [List.zipWith_map_right, List.map_zipWith]
    have hf : (fun (a : ℝ) (b : ℝ) => (1 - Real.cos a) * -b)
        = fun a b => -((1 - Real.cos a) * b) := by
      funext a b; ring
    rw [hf]
  rw [hneg, sum_map_neg, abs_neg]

/-- C4: the ring-closing step of `calculate_area` does not append a copy of
the first point.  On the ring (0,0), (0,1), (1,1) (longitude, latitude
degrees), whose first and last latitudes differ, the closing branch is taken
and raises AttributeError: `deg2rad` has converted the coordinate lists to
numpy ndarrays, which have no `append` method.  (The guard also compares
only latitudes, not full points.) -/
theorem C4_closing_branch_raises :
    sphericalPolygonArea [⟨0, 0⟩, ⟨0, 1⟩, ⟨1, 1⟩] 6378137
      = Except.error PyError.attributeError := by
  unfold sphericalPolygonArea calculate_area
  rw [if_neg (by simp), if_neg]
  show ¬ (some (deg2rad 0) = some (deg2rad 1))
  intro h
  rw [Option.some.injEq] at h
  unfold deg2rad at h
  ring_nf at h
  have hpi := Real.pi_ne_zero
  have : Real.pi = 0 := by linarith
  exact hpi this

/-- C6: the boundary ring built by `read_segments` is exactly the planned
line's points in forward order, the actual route's points in reverse order,
and one copy of the planned line's first point, in that order, with no other
points. -/
theorem C6_boundary_ring (line mission : List GeoPoint) (h : line ≠ []) :
    lon_lat_polygon line mission = line ++ mission.reverse ++ [line.head h] := by
  obtain ⟨p, t, rfl⟩ := List.exists_cons_of_ne_nil h
  unfold lon_lat_polygon
  simp

theorem C6_witness : ([⟨1, 2⟩] : List GeoPoint) ≠ [] ∧
    lon_lat_polygon [⟨1, 2⟩] [⟨3, 4⟩]
      = [⟨1, 2⟩] ++ ([⟨3, 4⟩] : List GeoPoint).reverse
        ++ [([⟨1, 2⟩] : List GeoPoint).head (by simp)] :=
  ⟨by simp, C6_boundary_ring [⟨1, 2⟩] [⟨3, 4⟩] (by simp)⟩

/-- C8: the haversine distance of `calculate_line_distance` is symmetric in
its two points. -/
theorem C8_haversine_symm (p1 p2 : GeoPoint) (R : ℝ) :
    haversine p1 p2 R = haversine p2 p1 R := by
  unfold haversine
  rw [hav_a_comm]

/-- C10: for every boundary ring built by `read_segments` from a nonempty
planned line, the first and last latitude coincide, so the ring-closing
branch of `calculate_area` (which would raise AttributeError) is never
taken. -/
theorem C10_ring_always_closed (line mission : List GeoPoint) (R : ℝ)
    (h : line ≠ []) :
    (lat_polygon line mission).head? = (lat_polygon line mission).getLast? ∧
    calculate_area (lat_polygon line mission) (lon_polygon line mission) R
      ≠ Except.error PyError.attributeError := by
  obtain ⟨p, t, rfl⟩ := List.exists_cons_of_ne_nil h
  have hhead : (lat_polygon (p :: t) mission).head? = some p.lat := by
    unfold lat_polygon lon_lat_polygon
    simp
  have hlast : (lat_polygon (p :: t) mission).getLast? = some p.lat := by
    unfold lat_polygon lon_lat_polygon
    have hsh : (p :: t) ++ mission.reverse ++ (p :: t).take 1
        = ((p :: t) ++ mission.reverse) ++ [p] := by
      simp
    rw [hsh, List.map_append]
    simp only [List.map_cons, List.map_nil]
    exact List.getLast?_concat _
  have hcl : (lat_polygon (p :: t) mission).head?
      = (lat_polygon (p :: t) mission).getLast? := by rw [hhead, hlast]
  refine ⟨hcl, ?_⟩
  have hne : lat_polygon (p :: t) mission ≠ [] := by
    intro hc
    rw [hc] at hhead
    simp at hhead
  unfold calculate_area
  rw [if_neg (by simp [hne]), if_pos]
  · simp
  · rw [List.head?_map, List.getLast?_map, hcl]

theorem C10_witness : ([⟨1, 2⟩] : List GeoPoint) ≠ [] ∧
    ((lat_polygon [⟨1, 2⟩] [⟨3, 4⟩]).head?
      = (lat_polygon [⟨1, 2⟩] [⟨3, 4⟩]).getLast? ∧
    calculate_area (lat_polygon [⟨1, 2⟩] [⟨3, 4⟩])
      (lon_polygon [⟨1, 2⟩] [⟨3, 4⟩]) 6378137
      ≠ Except.error PyError.attributeError) :=
  ⟨by simp, C10_ring_always_closed [⟨1, 2⟩] [⟨3, 4⟩] 6378137 (by simp)⟩

/-- C7: `calculate_line_distance` reports the haversine distance between the
planned track's first and last point only, and its value does not change
when the intermediate points of the track are altered. -/
theorem C7_distance_endpoints_only (pts ptsB : List GeoPoint) (R : ℝ)
    (h2 : 2 ≤ pts.length)
    (hh : ptsB.head? = pts.head?) (hl : ptsB.getLast? = pts.getLast?) :
    (∃ p q, pts.head? = some p ∧ pts.getLast? = some q ∧
      calculate_line_distance pts R = Except.ok (haversine p q R)) ∧
    calculate_line_distance ptsB R = calculate_line_distance pts R := by
  constructor
  · obtain ⟨p, t, rfl⟩ : ∃ p t, pts = p :: t := by
      cases pts with
      | nil => simp at h2
      | cons a t => exact ⟨a, t, rfl⟩
    refine ⟨p, (p :: t).getLast (by simp), rfl, ?_, ?_⟩
    · rw [List.getLast?_eq_getLast]
    · unfold calculate_line_distance
      rw [List.getLast?_eq_getLast (p :: t) (by simp)]
      rfl
  · unfold calculate_line_distance
    rw [hh, hl]

theorem C7_witness :
    (2 ≤ ([⟨0, 0⟩, ⟨0, 1⟩] : List GeoPoint).length) ∧
    (([⟨0, 0⟩, ⟨5, 5⟩, ⟨0, 1⟩] : List GeoPoint).head?
      = ([⟨0, 0⟩, ⟨0, 1⟩] : List GeoPoint).head?) ∧
    (([⟨0, 0⟩, ⟨5, 5⟩, ⟨0, 1⟩] : List GeoPoint).getLast?
      = ([⟨0, 0⟩, ⟨0, 1⟩] : List GeoPoint).getLast?) ∧
    ((∃ p q, ([⟨0, 0⟩, ⟨0, 1⟩] : List GeoPoint).head? = some p ∧
      ([⟨0, 0⟩, ⟨0, 1⟩] : List GeoPoint).getLast? = some q ∧
      calculate_line_distance [⟨0, 0⟩, ⟨0, 1⟩] 6378137
        = Except.ok (haversine p q 6378137)) ∧
    calculate_line_distance [⟨0, 0⟩, ⟨5, 5⟩, ⟨0, 1⟩] 6378137
      = calculate_line_distance [⟨0, 0⟩, ⟨0, 1⟩] 6378137) :=
  ⟨by simp, rfl, rfl,
    C7_distance_endpoints_only [⟨0, 0⟩, ⟨0, 1⟩] [⟨0, 0⟩, ⟨5, 5⟩, ⟨0, 1⟩]
      6378137 (by simp) rfl rfl⟩

/-- C2: with a planned line whose first and last point coincide, the
computed distance is 0, and `calculate_av_deviation` does not fail: it
performs the numpy division anyway, silently yielding inf (positive area)
or nan (zero area). -/
theorem C2_silent_division :
    calculate_line_distance [pO, ⟨5, 5⟩, pO] 6378137 = Except.ok 0 ∧
    calculate_av_deviation 5 0 = NumFloat.posInf ∧
    calculate_av_deviation 0 0 = NumFloat.nan := by
  refine ⟨?_, ?_, ?_⟩
  · show Except.ok (haversine pO pO 6378137) = Except.ok 0
    rw [haversine_self]
  · unfold calculate_av_deviation numpyDiv
    rw [if_pos rfl, if_neg (by norm_num), if_pos (by norm_num)]
  · unfold calculate_av_deviation numpyDiv
    rw [if_pos rfl, if_pos rfl]

/-- C5 (counterexample to the claimed interval): on the ring north pole,
south pole, equator at 90 E (closed), the first normalized azimuth delta is
exactly -pi, which does not lie in the claimed half-open interval
(-pi, pi]. -/
theorem C5_counterexample :
    ((npDiff (ringNSE.map pointAz)).map dazNorm).head? = some (-Real.pi) ∧
    -Real.pi ∉ Set.Ioc (-Real.pi) Real.pi := by
  constructor
  · have ha : ringNSE.map pointAz = [0, Real.pi, Real.pi / 2, 0] := by
      simp [ringNSE, pointAz_pN, pointAz_pS, pointAz_pE]
    rw [ha]
    have h1 : npDiff [0, Real.pi, Real.pi / 2, 0]
        = [Real.pi, -(Real.pi / 2), -(Real.pi / 2)] := by
      unfold npDiff adjZip
      norm_num
      ring
    rw [h1]
    simp [dazNorm_pi]
  · simp

/-- C5 (amended): the normalization `((az2 - az1) + pi) mod 2pi - pi` maps
every real azimuth difference into the half-open interval [-pi, pi) --
closed on the left and open on the right, not the other way around. -/
theorem C5_daz_in_Ico (d : ℝ) : dazNorm d ∈ Set.Ico (-Real.pi) Real.pi :=
  dazNorm_mem_Ico d

theorem areaFrac_nonneg (lats lons : List ℝ) : 0 ≤ areaFrac lats lons := by
  unfold areaFrac fracOf
  positivity

/-- C1 (counterexample to the claimed range): the degenerate 7-point ring
alternating between the poles, with radius 1, yields area -2*pi, which is
negative and hence outside the claimed range [0, 2*pi*r^2]: the fraction
before the min step is 3/2, so `min(f, 1-f)` is negative. -/
theorem C1_counterexample :
    3 ≤ ringPoles.length ∧ (0 : ℝ) < 1 ∧
    sphericalPolygonArea ringPoles 1 = Except.ok (-(2 * Real.pi)) ∧
    -(2 * Real.pi) ∉ Set.Icc (0 : ℝ) (2 * Real.pi * 1 ^ 2) := by
  refine ⟨by simp [ringPoles], by norm_num, area_ringPoles, ?_⟩
  intro hmem
  obtain ⟨h1, h2⟩ := hmem
  have := Real.pi_pos
  linarith

/-- C1 (amended): for every ring whose first and last latitudes coincide
(so the computation does not fail) and every radius r > 0, the computed
area is at most 2*pi*r^2; it is moreover nonnegative -- hence within
[0, 2*pi*r^2] -- whenever the solid-angle fraction before the
`min(f, 1-f)` step is at most 1. -/
theorem C1_area_bounds (ring : List GeoPoint) (R : ℝ)
    (h3 : 3 ≤ ring.length) (hR : 0 < R)
    (hcl : ((ring.map GeoPoint.lat).map deg2rad).head?
      = ((ring.map GeoPoint.lat).map deg2rad).getLast?) :
    ∃ A, sphericalPolygonArea ring R = Except.ok A ∧
      A ≤ 2 * Real.pi * R ^ 2 ∧
      (areaFrac ((ring.map GeoPoint.lat).map deg2rad)
        ((ring.map GeoPoint.lon).map deg2rad) ≤ 1 → 0 ≤ A) := by
  have hne : ring ≠ [] := by
    intro hnil
    rw [hnil] at h3
    simp at h3
  have heval : sphericalPolygonArea ring R = Except.ok
      (areaCore ((ring.map GeoPoint.lat).map deg2rad)
        ((ring.map GeoPoint.lon).map deg2rad) R) := by
    unfold sphericalPolygonArea calculate_area
    rw [if_neg (by simp [hne]), if_pos hcl]
  refine ⟨_, heval, ?_, ?_⟩
  · have hf0 : 0 ≤ areaFrac ((ring.map GeoPoint.lat).map deg2rad)
        ((ring.map GeoPoint.lon).map deg2rad) := areaFrac_nonneg _ _
    have hmin : min (areaFrac ((ring.map GeoPoint.lat).map deg2rad)
        ((ring.map GeoPoint.lon).map deg2rad))
        (1 - areaFrac ((ring.map GeoPoint.lat).map deg2rad)
          ((ring.map GeoPoint.lon).map deg2rad)) ≤ 1 / 2 := by
      rcases le_total (areaFrac ((ring.map GeoPoint.lat).map deg2rad)
          ((ring.map GeoPoint.lon).map deg2rad))
          (1 - areaFrac ((ring.map GeoPoint.lat).map deg2rad)
            ((ring.map GeoPoint.lon).map deg2rad)) with hle | hle
      · rw [min_eq_left hle]; linarith
      · rw [min_eq_right hle]; linarith
    have h4 : (0 : ℝ) ≤ 4 * Real.pi * R ^ 2 := by positivity
    unfold areaCore
    calc min (areaFrac ((ring.map GeoPoint.lat).map deg2rad)
          ((ring.map GeoPoint.lon).map deg2rad))
          (1 - areaFrac ((ring.map GeoPoint.lat).map deg2rad)
            ((ring.map GeoPoint.lon).map deg2rad)) * 4 * Real.pi * R ^ 2
        = min (areaFrac ((ring.map GeoPoint.lat).map deg2rad)
            ((ring.map GeoPoint.lon).map deg2rad))
            (1 - areaFrac ((ring.map GeoPoint.lat).map deg2rad)
              ((ring.map GeoPoint.lon).map deg2rad)) * (4 * Real.pi * R ^ 2) := by
          ring
      _ ≤ 1 / 2 * (4 * Real.pi * R ^ 2) := mul_le_mul_of_nonneg_right hmin h4
      _ = 2 * Real.pi * R ^ 2 := by ring
  · intro hf1
    have hf0 : 0 ≤ areaFrac ((ring.map GeoPoint.lat).map deg2rad)
        ((ring.map GeoPoint.lon).map deg2rad) := areaFrac_nonneg _ _
    have hmin0 : 0 ≤ min (areaFrac ((ring.map GeoPoint.lat).map deg2rad)
        ((ring.map GeoPoint.lon).map deg2rad))
        (1 - areaFrac ((ring.map GeoPoint.lat).map deg2rad)
          ((ring.map GeoPoint.lon).map deg2rad)) :=
      le_min hf0 (by linarith)
    unfold areaCore
    have h4 : (0 : ℝ) ≤ 4 * Real.pi * R ^ 2 := by positivity
    nlinarith

theorem C1_witness :
    3 ≤ ringZ.length ∧ (0 : ℝ) < 1 ∧
    (((ringZ.map GeoPoint.lat).map deg2rad).head?
      = ((ringZ.map GeoPoint.lat).map deg2rad).getLast?) ∧
    ∃ A, sphericalPolygonArea ringZ 1 = Except.ok A ∧
      A ≤ 2 * Real.pi * 1 ^ 2 ∧
      (areaFrac ((ringZ.map GeoPoint.lat).map deg2rad)
        ((ringZ.map GeoPoint.lon).map deg2rad) ≤ 1 → 0 ≤ A) :=
  ⟨by simp [ringZ], by norm_num, rfl,
    C1_area_bounds ringZ 1 (by simp [ringZ]) (by norm_num) rfl⟩

/-- C9 (counterexample to orientation independence): the closed ring north
pole, south pole, equator at 90 E yields area 2*pi (radius 1) when traversed
forward, but 0 when traversed in reverse: one edge's azimuth difference is
exactly pi modulo 2*pi, and the normalization sends it to -pi in both
traversal directions instead of negating it. -/
theorem C9_counterexample :
    sphericalPolygonArea ringNSE 1 = Except.ok (2 * Real.pi) ∧
    sphericalPolygonArea ringNSE.reverse 1 = Except.ok 0 ∧
    (2 * Real.pi : ℝ) ≠ 0 :=
  ⟨area_ringNSE, area_ringNSE_rev, by positivity⟩

/-- C9 (amended): the spherical polygon area of a ring and of the same ring
traversed in reverse order coincide, provided no consecutive pair's azimuth
difference is congruent to pi modulo 2*pi (i.e. no normalized delta equals
-pi); at such a delta the normalization is not odd and the two orientations
can disagree. -/
theorem C9_reverse_ring (ring : List GeoPoint) (R : ℝ) (h3 : 3 ≤ ring.length)
    (hdaz : ∀ d ∈ npDiff (ring.map pointAz), dazNorm d ≠ -Real.pi) :
    sphericalPolygonArea ring.reverse R = sphericalPolygonArea ring R := by
  have hne : ring ≠ [] := by
    intro hnil
    rw [hnil] at h3
    simp at h3
  have hneR : ring.reverse ≠ [] := by simp [hne]
  have hLrev : (ring.reverse.map GeoPoint.lat).map deg2rad
      = (((ring.map GeoPoint.lat).map deg2rad)).reverse := by
    rw [List.map_reverse, List.map_reverse]
  by_cases hcl : ((ring.map GeoPoint.lat).map deg2rad).head?
      = ((ring.map GeoPoint.lat).map deg2rad).getLast?
  · have hclR : ((ring.reverse.map GeoPoint.lat).map deg2rad).head?
        = ((ring.reverse.map GeoPoint.lat).map deg2rad).getLast? := by
      rw [hLrev, List.head?_reverse, List.getLast?_reverse]
      exact hcl.symm
    rw [sphericalPolygonArea_eval ring.reverse R hneR hclR,
      sphericalPolygonArea_eval ring R hne hcl,
      List.map_reverse, List.map_reverse,
      fracOf_reverse _ _ (by rw [List.length_map, List.length_map]) hdaz]
  · have hclR : ¬ ((ring.reverse.map GeoPoint.lat).map deg2rad).head?
        = ((ring.reverse.map GeoPoint.lat).map deg2rad).getLast? := by
      rw [hLrev, List.head?_reverse, List.getLast?_reverse]
      intro hcontra
      exact hcl hcontra.symm
    unfold sphericalPolygonArea calculate_area
    rw [if_neg (by simp [hne]), if_neg hclR, if_neg (by simp [hne]),
      if_neg hcl]

theorem C9_witness :
    3 ≤ ringSq.length ∧
    (∀ d ∈ npDiff (ringSq.map pointAz), dazNorm d ≠ -Real.pi) ∧
    sphericalPolygonArea ringSq.reverse 1 = sphericalPolygonArea ringSq 1 := by
  have hdaz : ∀ d ∈ npDiff (ringSq.map pointAz), dazNorm d ≠ -Real.pi := by
    intro d hd
    have ha : ringSq.map pointAz = [0, Real.pi / 2, 0, 0] := by
      simp [ringSq, pointAz_pO, pointAz_pE, pointAz_pN]
    rw [ha] at hd
    have h1 : npDiff [0, Real.pi / 2, 0, 0]
        = [Real.pi / 2, -(Real.pi / 2), 0] := by
      unfold npDiff adjZip
      norm_num
    rw [h1] at hd
    have hpi := Real.pi_pos
    simp only [List.mem_cons, List.not_mem_nil, or_false] at hd
    rcases hd with h | h | h
    · rw [h, dazNorm_pi_div_two]; intro hc; linarith
    · rw [h, dazNorm_neg_pi_div_two]; intro hc; linarith
    · rw [h, dazNorm_zero]; intro hc; linarith
  exact ⟨by simp [ringSq], hdaz,
    C9_reverse_ring ringSq 1 (by simp [ringSq]) hdaz⟩

/-- C3: the source performs no point-count validation and defines no
InvalidInput error.  With a planned line of 3 points and an actual route of
0 points (fewer than the required 2), the whole pipeline -- polygon
construction, distance, area and deviation -- runs to completion and
returns a result instead of failing. -/
theorem C3_no_validation :
    ∃ res, gpxReader [⟨0, 0⟩, ⟨0, 1⟩, ⟨1, 1⟩] ([] : List GeoPoint) 6378137
      = Except.ok res := by
  unfold gpxReader
  have hsh1 : shapelyOk (lon_lat_line [⟨0, 0⟩, ⟨0, 1⟩, ⟨1, 1⟩]) :=
    Or.inr (by simp [lon_lat_line])
  have hsh2 : shapelyOk (lon_lat_mission ([] : List GeoPoint)) :=
    Or.inl (by simp [lon_lat_mission])
  have hsh3 : shapelyOk (lon_lat_polygon [⟨0, 0⟩, ⟨0, 1⟩, ⟨1, 1⟩]
      ([] : List GeoPoint)) :=
    Or.inr (by simp [lon_lat_polygon])
  rw [if_neg (not_not_intro hsh1), if_neg (not_not_intro hsh2),
    if_neg (not_not_intro hsh3)]
  have hdist : calculate_line_distance [⟨0, 0⟩, ⟨0, 1⟩, ⟨1, 1⟩] 6378137
      = Except.ok (haversine ⟨0, 0⟩ ⟨1, 1⟩ 6378137) := rfl
  have hlat : lat_polygon [⟨0, 0⟩, ⟨0, 1⟩, ⟨1, 1⟩] ([] : List GeoPoint)
      = [0, 1, 1, 0] := rfl
  have hlon : lon_polygon [⟨0, 0⟩, ⟨0, 1⟩, ⟨1, 1⟩] ([] : List GeoPoint)
      = [0, 0, 1, 0] := rfl
  rw [hdist, hlat, hlon]
  have harea : calculate_area [0, 1, 1, 0] [0, 0, 1, 0] 6378137
      = Except.ok (areaCore ([0, 1, 1, 0].map deg2rad)
        ([0, 0, 1, 0].map deg2rad) 6378137) := by
    unfold calculate_area
    rw [if_neg (by simp),
      if_pos (show (List.map deg2rad [(0:ℝ), 1, 1, 0]).head?
        = (List.map deg2rad [(0:ℝ), 1, 1, 0]).getLast? from rfl)]
  rw [harea]
  exact ⟨_, rfl⟩
